import Mathlib

/-!
Verification of the ASR-And-STT-AI-Notebook pipeline scripts.

The definitions below are a shallow embedding of the Python sources:
  src/export/build_book.py        (book aggregation)
  src/scripts/convert-to-ssml.py  (Conversion Stage)
  src/scripts/generate-podcast.py (Synthesis Stage, edge-tts backend)
  src/scripts/generate-podcast-kokoro.py (Synthesis Stage, Kokoro backend)

Strings are modelled as Lean `String` (lists of characters); Python regular
expression substitutions are embedded as executable character scanners that
implement the leftmost, greedy, single-pass semantics of `re.sub` for the
specific patterns appearing in the sources.  `\s` is modelled over the ASCII
whitespace characters (space, tab, newline, carriage return, vertical tab,
form feed), which matches Python on the ASCII inputs this repository
processes.  External effects (file reads, HTTP calls, process invocations)
are passed in as explicit function parameters.
-/

namespace ASRNotebook

/-- ASCII whitespace, modelling Python's regex class `\s` and `str.split()` /
`str.strip()` whitespace on ASCII text. -/
def isWs (c : Char) : Bool :=
  c = ' ' || c = '\t' || c = '\n' || c = '\r' || c = '\x0b' || c = '\x0c'

/-- Does the list start with a whitespace character? -/
def headIsWs : List Char → Bool
  | c :: _ => isWs c
  | [] => false

/-!
## The MULTILINE heading-blanking regex of build_book.py

`re.sub(r'^#\s+.*$', '', content, flags=re.MULTILINE)` (build_book.py line
152).  A match starts at a line start with `#`, then a maximal (greedy) run
of whitespace -- which, since `\s` matches `\n`, may spill over line ends
when the `#` is followed only by whitespace on its line -- then the rest of
the current line (`.` does not match `\n`; `$` matches before a newline).
The whole match is replaced by the empty string and scanning resumes after
it.  The four mutually recursive scanners below implement exactly this:
`sTopStart` is "at a line start", `sTopMid` is "inside an ordinary line",
`sTopWs` is "consuming the `\s+` run of a match", `sTopRest` is "consuming
the `.*$` tail of a match".
-/

mutual

def sTopStart : List Char → List Char
  | [] => []
  | c :: cs =>
    if c = '#' && headIsWs cs then sTopWs cs
    else if c = '\n' then c :: sTopStart cs
    else c :: sTopMid cs

def sTopMid : List Char → List Char
  | [] => []
  | c :: cs => if c = '\n' then c :: sTopStart cs else c :: sTopMid cs

def sTopWs : List Char → List Char
  | [] => []
  | c :: cs => if isWs c then sTopWs cs else sTopRest cs

def sTopRest : List Char → List Char
  | [] => []
  | c :: cs => if c = '\n' then c :: sTopStart cs else sTopRest cs

end

/-- build_book.py line 152: blank every top-level markdown heading line. -/
def stripTopHeaders (s : String) : String := ⟨sTopStart s.data⟩

/-- Python `sep.join(parts)`. -/
def pyJoin (sep : String) (parts : List String) : String :=
  ⟨List.intercalate sep.data (parts.map String.data)⟩

/-- Python `str.strip()` on a character list: drop whitespace at both ends. -/
def pyStripChars (l : List Char) : List Char :=
  ((l.dropWhile isWs).reverse.dropWhile isWs).reverse

/-- Python `str.strip()`. -/
def pyStrip (s : String) : String := ⟨pyStripChars s.data⟩

/-!
## Single-pass substitution scanners for the SSML-stripping regexes

`substLitGo pat repl fuel l` is `re.sub(pat, repl, l)` for a literal pattern
`pat`; `substOpenGo pre check repl fuel l` is `re.sub(pre ++ "[^>]*>", repl, l)`
(with an extra `check` on the `[^>]*` part, used for the `<\?xml[^>]*\?>`
pattern whose bracket part must end in `?`).  Both scan left to right and
restart after each replacement, exactly like a single `re.sub` pass; `fuel`
is initialised with the length of the input, which bounds the number of
steps since every step consumes at least one character.
-/

def substLitGo (pat repl : List Char) : Nat → List Char → List Char
  | _, [] => []
  | 0, l => l
  | fuel + 1, c :: cs =>
    if pat.isPrefixOf (c :: cs) then
      repl ++ substLitGo pat repl fuel ((c :: cs).drop pat.length)
    else c :: substLitGo pat repl fuel cs

/-- `re.sub` with a literal pattern, i.e. Python `str.replace`. -/
def substLit (pat repl : String) (l : List Char) : List Char :=
  substLitGo pat.data repl.data l.length l

/-- Split at the first `'>'`: returns the part before it and the part after
it, or `none` when there is no `'>'`. -/
def findTagEnd (l : List Char) : Option (List Char × List Char) :=
  match l.dropWhile (· ≠ '>') with
  | '>' :: after => some (l.takeWhile (· ≠ '>'), after)
  | _ => none

def substOpenGo (pre : List Char) (check : List Char → Bool) (repl : List Char) :
    Nat → List Char → List Char
  | _, [] => []
  | 0, l => l
  | fuel + 1, c :: cs =>
    if pre.isPrefixOf (c :: cs) then
      match findTagEnd ((c :: cs).drop pre.length) with
      | some (a, after) =>
          if check a then repl ++ substOpenGo pre check repl fuel after
          else c :: substOpenGo pre check repl fuel cs
      | none => c :: substOpenGo pre check repl fuel cs
    else c :: substOpenGo pre check repl fuel cs

/-- `re.sub(pre ++ "[^>]*>", repl, l)` with an extra check on the bracket
part (the check is constantly true except for the xml-declaration pattern). -/
def substOpen (pre : String) (check : List Char → Bool) (repl : String)
    (l : List Char) : List Char :=
  substOpenGo pre.data check repl.data l.length l

/-- `re.sub(r'\s+', ' ', text)`: collapse every whitespace run to a single
space.  The boolean records whether the previous character was whitespace. -/
def collapseGo : Bool → List Char → List Char
  | _, [] => []
  | prevWs, c :: cs =>
    if isWs c then
      if prevWs then collapseGo true cs else ' ' :: collapseGo true cs
    else c :: collapseGo false cs

/-- generate-podcast-kokoro.py lines 30-62: `strip_ssml_tags`.  The regex
substitutions are applied in exactly the order of the source. -/
def strip_ssml_tags (s : String) : String :=
  let t := s.data
  let t := substOpen "<?xml" (fun a => a.getLast? == some '?') "" t
  let t := substOpen "<speak" (fun _ => true) "" t
  let t := substLit "</speak>" "" t
  let t := substOpen "<break" (fun _ => true) " " t
  let t := substOpen "<prosody" (fun _ => true) "" t
  let t := substLit "</prosody>" "" t
  let t := substOpen "<emphasis" (fun _ => true) "" t
  let t := substLit "</emphasis>" "" t
  let t := substOpen "<say-as" (fun _ => true) "" t
  let t := substLit "</say-as>" "" t
  let t := substLit "<p>" "\n\n" t
  let t := substLit "</p>" "\n\n" t
  let t := collapseGo false t
  ⟨pyStripChars t⟩

/-!
## build_book.py
-/

/-- Python `str.split()` (split on whitespace runs, dropping empty pieces);
`cur` accumulates the current word in reverse. -/
def splitWsGo (cur : List Char) : List Char → List (List Char)
  | [] => if cur.isEmpty then [] else [cur.reverse]
  | c :: cs =>
    if isWs c then
      if cur.isEmpty then splitWsGo [] cs else cur.reverse :: splitWsGo [] cs
    else splitWsGo (c :: cur) cs

/-- Python `str.split()`. -/
def pySplitWs (s : String) : List String := (splitWsGo [] s.data).map (⟨·⟩)

/-- Python `str.replace` (replace every occurrence, left to right). -/
def pyReplace (pat repl s : String) : String := ⟨substLit pat repl s.data⟩

/-- Python `str.capitalize()`: first character upper-cased, the remaining
characters lower-cased (ASCII case mapping, as in the repository's
filenames). -/
def pyCapitalize (w : String) : String :=
  match w.data with
  | [] => ""
  | c :: cs => ⟨c.toUpper :: cs.map Char.toLower⟩

/-- build_book.py lines 65-70: `clean_title`. -/
def clean_title (filename : String) : String :=
  pyJoin " " ((pySplitWs (pyReplace "-" " " (pyReplace ".md" "" filename))).map pyCapitalize)

/-- build_book.py lines 13-62: `TOPIC_ORDER`, as an insertion-ordered list of
`(key, title, description)`. -/
def TOPIC_ORDER : List (String × String × String) :=
  [("background-context", "Part I: Background & Context",
    "Historical context and evolution of ASR technology"),
   ("models", "Part II: ASR Models",
    "Overview and comparison of ASR models"),
   ("data-preparation", "Part III: Data Preparation",
    "Audio data preparation and dataset creation"),
   ("fine-tuning", "Part IV: Fine-Tuning",
    "Fine-tuning strategies and techniques"),
   ("inference", "Part V: Inference & Deployment",
    "Running and deploying ASR models"),
   ("amd", "Part VI: AMD GPU Optimization",
    "AMD-specific hardware considerations"),
   ("mobile-asr", "Part VII: Mobile ASR",
    "Mobile and edge device deployment"),
   ("formats", "Part VIII: File Formats",
    "Audio and model file formats"),
   ("vocab", "Part IX: Vocabulary & Language",
    "Vocabulary recognition and language considerations"),
   ("pitfalls", "Part X: Common Pitfalls",
    "Common issues and how to avoid them"),
   ("q-and-a", "Part XI: Q&A",
    "Frequently asked questions"),
   ("notes", "Part XII: Additional Notes",
    "Supplementary topics and observations")]

def topicKeys : List String := TOPIC_ORDER.map (·.1)

def topicTitle (k : String) : String :=
  ((TOPIC_ORDER.find? (·.1 == k)).map (·.2.1)).getD ""

def topicDescription (k : String) : String :=
  ((TOPIC_ORDER.find? (·.1 == k)).map (·.2.2)).getD ""

/-- `pathlib.Path.glob('*.md')`: names ending in `.md`, sorted.  Unlike the
`glob` module, `pathlib`'s glob also matches names with a leading dot
(`.hidden.md`, and `.md` itself, are returned), so the filter is a plain
suffix test. -/
def globMd (files : List String) : List String :=
  List.insertionSort (· ≤ ·) (files.filter fun f => ['.', 'm', 'd'].isSuffixOf f.data)

/-- build_book.py lines 73-83: `collect_files`.  The filesystem snapshot is
given as the list of immediate subdirectories of the notebook directory,
each with the names of the files directly inside it; the result maps each
topic key to its sorted markdown files (empty for unmatched keys, exactly as
the `organized` dict is initialised). -/
def collect_files (fs : List (String × List String)) : String → List String :=
  fs.foldl
    (fun acc p =>
      if p.1 ∈ topicKeys then fun k => if k = p.1 then globMd p.2 else acc k
      else acc)
    (fun _ => [])

/-- build_book.py lines 88-90: the fixed head of the table of contents. -/
def tocHeader : List String :=
  ["# Speech-to-Text Fine-Tuning Guide", "",
   "_A Comprehensive Guide to ASR Model Fine-Tuning and Deployment_", "",
   "---", "", "## Table of Contents", ""]

/-- build_book.py lines 96-98: the three lines appended for one topic. -/
def tocEntry (o : String → List String) (k : String) : List String :=
  ["**" ++ topicTitle k ++ "**  ",
   topicDescription k ++ " (" ++ toString (o k).length ++ " chapters)", ""]

/-- build_book.py lines 86-103: `generate_toc`, as its list of lines. -/
def tocParts (o : String → List String) : List String :=
  tocHeader ++
    topicKeys.flatMap (fun k => if (o k).isEmpty then [] else tocEntry o k) ++
    ["---", ""]

def generate_toc (o : String → List String) : String := pyJoin "\n" (tocParts o)

/-- The path string `notebook_dir / topic / name` appearing in error
placeholders. -/
def notebookPath (k name : String) : String := "../notebook/" ++ k ++ "/" ++ name

/-- The inline placeholder rendered for a failed file read
(build_book.py line 113). -/
def readErrorPlaceholder (k name e : String) : String :=
  "<!-- Error reading " ++ notebookPath k name ++ ": " ++ e ++ " -->"

/-- build_book.py lines 106-113: `read_file_content`.  The filesystem read is
the explicit parameter `read` (topic, filename ↦ contents or exception
message). -/
def read_file_content (read : String → String → Except String String)
    (k name : String) : String :=
  match read k name with
  | .ok c => pyStrip c
  | .error e => readErrorPlaceholder k name e

/-- build_book.py lines 144-155: the parts appended for one chapter. -/
def chapterParts (read : String → String → Except String String)
    (k name : String) : List String :=
  ["", "## " ++ clean_title name, "",
   stripTopHeaders (read_file_content read k name), ""]

/-- build_book.py lines 131-155: the parts appended for one (non-empty)
topic. -/
def topicSection (read : String → String → Except String String)
    (k : String) (files : List String) : List String :=
  ["", "# " ++ topicTitle k, "", "_" ++ topicDescription k ++ "_", "", "---", ""] ++
    files.flatMap (chapterParts read k)

/-- build_book.py lines 116-157: `build_master_document`, as its parts list
(the document is `'\n'.join` of it). -/
def build_master_parts (o : String → List String)
    (read : String → String → Except String String) : List String :=
  generate_toc o ::
    topicKeys.flatMap (fun k => if (o k).isEmpty then [] else topicSection read k (o k))

def build_master_document (o : String → List String)
    (read : String → String → Except String String) : String :=
  pyJoin "\n" (build_master_parts o read)

/-!
## convert-to-ssml.py (Conversion Stage)
-/

/-- One entry of the Conversion Stage manifest (convert-to-ssml.py lines
139-156): `output` and `error` are present only on the branches that set
them. -/
structure ConvEntry where
  source : String
  output : Option String
  status : String
  error : Option String
deriving DecidableEq

/-- The Conversion Stage manifest (convert-to-ssml.py lines 103-107). -/
structure ConvManifest where
  generated_at : String
  total_files : Nat
  files : List ConvEntry
deriving DecidableEq

/-- `pathlib.Path.stem`-based output name: the relative source path with its
final extension replaced (convert-to-ssml.py line 118: `md_file.stem`
joined with `.ssml` in the mirrored directory). -/
def pathStem (name : String) : String :=
  if '.' ∈ name.data then ⟨((name.data.reverse.dropWhile (· ≠ '.')).drop 1).reverse⟩
  else name

def ssmlName (rel : String) : String := pathStem rel ++ ".ssml"

/-- The manifest entries appended by one iteration of the `process_notebook`
loop (convert-to-ssml.py lines 109-156): a failed read prints and
`continue`s, appending nothing; a failed conversion appends
`conversion_failed`; a failed save appends `error`; otherwise `success`. -/
def convItem (read : String → Except String String)
    (convert : String → Option String)
    (write : String → String → Except String Unit) (rel : String) : List ConvEntry :=
  match read rel with
  | .error _ => []
  | .ok content =>
    match convert content with
    | none => [⟨rel, none, "conversion_failed", none⟩]
    | some ssml =>
      match write (ssmlName rel) ssml with
      | .ok _ => [⟨rel, some (ssmlName rel), "success", none⟩]
      | .error e => [⟨rel, some (ssmlName rel), "error", some e⟩]

/-- convert-to-ssml.py lines 92-161: `process_notebook`.  `mdFiles` is the
sorted list of relative source paths; `read` models `read_markdown_file`
(exception message on failure), `convert` models `convert_to_ssml` (`none`
on a `RequestException`, mirroring its `return None`), `write` models
writing the SSML output file. -/
def process_notebook (now : String) (mdFiles : List String)
    (read : String → Except String String)
    (convert : String → Option String)
    (write : String → String → Except String Unit) : ConvManifest :=
  { generated_at := now
    total_files := mdFiles.length
    files := mdFiles.flatMap (convItem read convert write) }

/-- Did the source read of this item succeed? -/
def readOk (read : String → Except String String) (rel : String) : Bool :=
  match read rel with
  | .ok _ => true
  | .error _ => false

/-!
## generate-podcast.py (Synthesis Stage, edge-tts backend)
-/

/-- One entry of a Synthesis Stage manifest: both synthesis scripts write
`ssml_source`, `audio_output` (success only) and `status`. -/
structure SynthEntry where
  ssml_source : String
  audio_output : Option String
  status : String
deriving DecidableEq

/-- generate-podcast.py lines 144-149: the edge-tts run manifest. -/
structure EdgeManifest where
  generated_at : String
  voice : String
  total_files : Nat
  files : List SynthEntry
deriving DecidableEq

/-- The outcome of an edge-tts run: the manifest plus the list of produced
audio files (`audio_files`, used for concatenation). -/
structure EdgeRun where
  manifest : EdgeManifest
  audio_files : List String
deriving DecidableEq

/-- generate-podcast.py line 57: the text handed to the edge-tts backend is
the raw file content (`--text ssml_content`), with no stripping. -/
def edge_tts_text (ssml_content : String) : String := ssml_content

/-- generate-podcast.py lines 44-75: `convert_ssml_to_audio`.  The content
read is passed in (`Except` error for a read exception); `tts` models the
edge-tts process invocation on the text built by `edge_tts_text` (false on
non-zero exit, timeout or exception). -/
def convert_ssml_to_audio (content : Except String String)
    (tts : String → Bool) : Bool :=
  match content with
  | .error _ => false
  | .ok c => tts (edge_tts_text c)

def mp3Name (rel : String) : String := pathStem rel ++ ".mp3"

def wavName (rel : String) : String := pathStem rel ++ ".wav"

/-- generate-podcast.py lines 120-188: `process_ssml_directory` up to the
saving of the individual-files manifest (the optional concatenation step
touches no manifest entry and is outside the claims).  `manifest` is the
Conversion Stage manifest if its file exists (`none` triggers `sys.exit`,
modelled as `none`); `ssmlFiles` is the sorted list of `.ssml` files found
on disk, each with its read result; an empty list also exits. -/
def process_ssml_directory (now voice : String)
    (manifest : Option ConvManifest)
    (ssmlFiles : List (String × Except String String))
    (tts : String → Bool) : Option EdgeRun :=
  match manifest with
  | none => none
  | some _ =>
    if ssmlFiles.isEmpty then none
    else some
      { manifest :=
          { generated_at := now, voice := voice, total_files := ssmlFiles.length
            files := ssmlFiles.map fun p =>
              if convert_ssml_to_audio p.2 tts then ⟨p.1, some (mp3Name p.1), "success"⟩
              else ⟨p.1, none, "failed"⟩ }
        audio_files :=
          (ssmlFiles.filter fun p => convert_ssml_to_audio p.2 tts).map fun p => mp3Name p.1 }

/-!
## generate-podcast-kokoro.py (Synthesis Stage, Kokoro backend)
-/

/-- generate-podcast-kokoro.py line 75: the text handed to the Kokoro
backend is the stripped content. -/
def kokoro_tts_text (ssml_content : String) : String := strip_ssml_tags ssml_content

/-- generate-podcast-kokoro.py lines 65-109: `convert_ssml_to_audio_kokoro`.
Returns (success flag, synthesis calls made, file written); `api` models the
Hugging Face call (`some` audio bytes on HTTP 200, `none` otherwise), audio
bytes being opaque strings.  When the stripped text is empty the function
returns `False` before any API call or write. -/
def convert_ssml_to_audio_kokoro (output_file : String)
    (content : Except String String)
    (api : String → Option String) : Bool × List String × Option (String × String) :=
  match content with
  | .error _ => (false, [], none)
  | .ok c =>
    let text := kokoro_tts_text c
    if text = "" then (false, [], none)
    else
      match api text with
      | some audio => (true, [text], some (output_file, audio))
      | none => (false, [text], none)

/-- generate-podcast-kokoro.py lines 178-184: the Kokoro run manifest. -/
structure KokoroManifest where
  generated_at : String
  tts_engine : String
  model : String
  total_files : Nat
  files : List SynthEntry
deriving DecidableEq

/-- The outcome of a Kokoro run: manifest, every text sent to the synthesis
API, and every audio file written. -/
structure KokoroRun where
  manifest : KokoroManifest
  calls : List String
  written : List (String × String)
deriving DecidableEq

/-- generate-podcast-kokoro.py lines 154-223: `process_ssml_directory` up to
the saving of the individual-files manifest (the optional concatenation step
touches no manifest entry and is outside the claims).  Parameters as in the
edge-tts variant. -/
def process_ssml_directory_kokoro (now : String)
    (manifest : Option ConvManifest)
    (ssmlFiles : List (String × Except String String))
    (api : String → Option String) : Option KokoroRun :=
  match manifest with
  | none => none
  | some _ =>
    if ssmlFiles.isEmpty then none
    else some
      { manifest :=
          { generated_at := now, tts_engine := "kokoro-82m", model := "hexgrad/Kokoro-82M"
            total_files := ssmlFiles.length
            files := ssmlFiles.map fun p =>
              if (convert_ssml_to_audio_kokoro (wavName p.1) p.2 api).1 then
                ⟨p.1, some (wavName p.1), "success"⟩
              else ⟨p.1, none, "failed"⟩ }
        calls := ssmlFiles.flatMap fun p =>
          (convert_ssml_to_audio_kokoro (wavName p.1) p.2 api).2.1
        written := ssmlFiles.filterMap fun p =>
          (convert_ssml_to_audio_kokoro (wavName p.1) p.2 api).2.2 }

/-!
## Definitions taken from the specification's words (for comparison)
-/

/-- Modelled from the spec: the claimed title derivation -- remove the file
extension, replace each hyphen with a space, split on whitespace, capitalize
the first letter of each token (leaving the rest unchanged), rejoin with
single spaces. -/
def specCapFirst (w : String) : String :=
  match w.data with
  | [] => ""
  | c :: cs => ⟨c.toUpper :: cs⟩

/-- Modelled from the spec: remove the file extension (the part from the
last dot on). -/
def specRemoveExt (f : String) : String := pathStem f

/-- Modelled from the spec: the full claimed title derivation of C5. -/
def specTitle (f : String) : String :=
  pyJoin " " ((pySplitWs (pyReplace "-" " " (specRemoveExt f))).map specCapFirst)

/-- A line beginning with a single `#` heading marker (`#` followed by a
whitespace character): exactly the lines the MULTILINE regex of
build_book.py matches within one line. -/
def topLineC : List Char → Bool
  | c :: cs => c = '#' && headIsWs cs
  | [] => false

def topHeadingLine (l : String) : Bool := topLineC l.data

/-- A line consisting of `#` followed only by whitespace: for such a line
(when a newline terminates it) the greedy `\s+` of the heading regex spills
across the terminating newline. -/
def spillC : List Char → Bool
  | c :: cs => c = '#' && cs.all isWs
  | [] => false

def spillLine (l : String) : Bool := spillC l.data

/-- Whitespace discipline of plain narration text: every whitespace
character is a space and no whitespace character follows another. -/
def niceWsChars : List Char → Bool
  | [] => true
  | c :: cs => (!(isWs c) || (c == ' ' && !headIsWs cs)) && niceWsChars cs

/-- Plain narration text: no `<` (so no recognized markup marker can match),
every whitespace character a single interior space.  On such text the
stripping transform is the identity. -/
def PlainText (s : String) : Prop :=
  '<' ∉ s.data ∧ niceWsChars s.data = true ∧
  headIsWs s.data = false ∧ headIsWs s.data.reverse = false

instance (s : String) : Decidable (PlainText s) := by
  unfold PlainText
  infer_instance

/-!
## Lemmas about the heading-blanking scanner
-/

theorem sTopMid_no_newline (m : List Char) (h : '\n' ∉ m) : sTopMid m = m := by
  induction m with
  | nil => rfl
  | cons c cs ih =>
    have hc : ¬ c = '\n' := fun hc => h (hc ▸ List.mem_cons_self c cs)
    simp [sTopMid, hc, ih fun hm => h (List.mem_cons_of_mem c hm)]

theorem sTopMid_append (m t : List Char) (h : '\n' ∉ m) :
    sTopMid (m ++ '\n' :: t) = m ++ '\n' :: sTopStart t := by
  induction m with
  | nil => simp [sTopMid]
  | cons c cs ih =>
    have hc : ¬ c = '\n' := fun hc => h (hc ▸ List.mem_cons_self c cs)
    simp [sTopMid, hc, ih fun hm => h (List.mem_cons_of_mem c hm)]

theorem sTopRest_no_newline (r : List Char) (h : '\n' ∉ r) : sTopRest r = [] := by
  induction r with
  | nil => rfl
  | cons c cs ih =>
    have hc : ¬ c = '\n' := fun hc => h (hc ▸ List.mem_cons_self c cs)
    simp [sTopRest, hc, ih fun hm => h (List.mem_cons_of_mem c hm)]

theorem sTopRest_append (r t : List Char) (h : '\n' ∉ r) :
    sTopRest (r ++ '\n' :: t) = '\n' :: sTopStart t := by
  induction r with
  | nil => simp [sTopRest]
  | cons c cs ih =>
    have hc : ¬ c = '\n' := fun hc => h (hc ▸ List.mem_cons_self c cs)
    simp [sTopRest, hc, ih fun hm => h (List.mem_cons_of_mem c hm)]

theorem sTopWs_ws_append (w x : List Char) (h : ∀ c ∈ w, isWs c) :
    sTopWs (w ++ x) = sTopWs x := by
  induction w with
  | nil => rfl
  | cons c cs ih =>
    simp [sTopWs, h c (List.mem_cons_self c cs),
      ih fun d hd => h d (List.mem_cons_of_mem c hd)]

theorem dropWhile_head_false {p : Char → Bool} :
    ∀ (l : List Char) (a : Char) (r : List Char), l.dropWhile p = a :: r → p a = false
  | [], a, r, h => by simp [List.dropWhile] at h
  | c :: cs, a, r, h => by
    by_cases hp : p c
    · rw [List.dropWhile_cons_of_pos hp] at h
      exact dropWhile_head_false cs a r h
    · rw [List.dropWhile_cons_of_neg hp] at h
      cases h
      simpa using hp

/-- One newline-terminated line of a match-free-spill input: a top-heading
line is blanked, any other line passes through, and scanning resumes at the
following line. -/
theorem sTopStart_line (m t : List Char) (hn : '\n' ∉ m) (hs : spillC m = false) :
    sTopStart (m ++ '\n' :: t) =
      (if topLineC m then [] else m) ++ '\n' :: sTopStart t := by
  cases m with
  | nil => simp [sTopStart, topLineC]
  | cons c cs =>
    have hcn : ¬ c = '\n' := fun hc => hn (hc ▸ List.mem_cons_self c cs)
    have hcs : '\n' ∉ cs := fun hm => hn (List.mem_cons_of_mem c hm)
    by_cases hc : c = '#'
    · subst hc
      cases cs with
      | nil => simp [spillC] at hs
      | cons d cs' =>
        by_cases hd : isWs d
        · -- the regex matches this line
          have hall : ¬ (d :: cs').all isWs := by
            intro hall
            simp [spillC, hall] at hs
          obtain ⟨a, r, hdrop⟩ : ∃ a r, (d :: cs').dropWhile isWs = a :: r := by
            cases hdw : (d :: cs').dropWhile isWs with
            | nil =>
              exact absurd (List.dropWhile_eq_nil_iff.mp hdw)
                (by simpa [List.all_eq_true] using hall)
            | cons a r => exact ⟨a, r, rfl⟩
          have hna : isWs a = false := dropWhile_head_false _ _ _ hdrop
          have hsplit : d :: cs' = (d :: cs').takeWhile isWs ++ a :: r := by
            conv_lhs => rw [← List.takeWhile_append_dropWhile (p := isWs) (l := d :: cs')]
            rw [hdrop]
          have hrn : '\n' ∉ r := by
            intro hr
            exact hcs (hsplit ▸ List.mem_append_right _ (List.mem_cons_of_mem a hr))
          have htop : topLineC ('#' :: d :: cs') = true := by
            simp [topLineC, headIsWs, hd]
          rw [htop]
          calc sTopStart ('#' :: d :: cs' ++ '\n' :: t)
              = sTopWs (d :: cs' ++ '\n' :: t) := by
                simp [sTopStart, headIsWs, hd]
            _ = sTopWs (((d :: cs').takeWhile isWs ++ a :: r) ++ '\n' :: t) := by
                rw [← hsplit]
            _ = sTopWs ((d :: cs').takeWhile isWs ++ (a :: (r ++ '\n' :: t))) := by
                simp
            _ = sTopWs (a :: (r ++ '\n' :: t)) :=
                sTopWs_ws_append _ _ fun c hc => List.mem_takeWhile_imp hc
            _ = sTopRest (r ++ '\n' :: t) := by simp [sTopWs, hna]
            _ = '\n' :: sTopStart t := sTopRest_append _ _ hrn
            _ = (if true = true then ([] : List Char) else '#' :: d :: cs') ++
                  '\n' :: sTopStart t := by simp
        · -- `#` not followed by whitespace: no match
          have htop : topLineC ('#' :: d :: cs') = false := by
            simp [topLineC, headIsWs, hd]
          rw [htop]
          have hmid := sTopMid_append (d :: cs') t hcs
          simp only [List.cons_append] at hmid
          simp [sTopStart, headIsWs, hd, hmid]
    · -- the line does not start with `#`
      have htop : topLineC (c :: cs) = false := by simp [topLineC, hc]
      rw [htop]
      simp [sTopStart, hc, hcn, sTopMid_append _ _ hcs]

/-- The final, unterminated line behaves the same way. -/
theorem sTopStart_no_newline (m : List Char) (hn : '\n' ∉ m) (hs : spillC m = false) :
    sTopStart m = if topLineC m then [] else m := by
  cases m with
  | nil => rfl
  | cons c cs =>
    have hcn : ¬ c = '\n' := fun hc => hn (hc ▸ List.mem_cons_self c cs)
    have hcs : '\n' ∉ cs := fun hm => hn (List.mem_cons_of_mem c hm)
    by_cases hc : c = '#'
    · subst hc
      cases cs with
      | nil => simp [spillC] at hs
      | cons d cs' =>
        by_cases hd : isWs d
        · have hall : ¬ (d :: cs').all isWs := by
            intro hall
            simp [spillC, hall] at hs
          obtain ⟨a, r, hdrop⟩ : ∃ a r, (d :: cs').dropWhile isWs = a :: r := by
            cases hdw : (d :: cs').dropWhile isWs with
            | nil =>
              exact absurd (List.dropWhile_eq_nil_iff.mp hdw)
                (by simpa [List.all_eq_true] using hall)
            | cons a r => exact ⟨a, r, rfl⟩
          have hna : isWs a = false := dropWhile_head_false _ _ _ hdrop
          have hsplit : d :: cs' = (d :: cs').takeWhile isWs ++ a :: r := by
            conv_lhs => rw [← List.takeWhile_append_dropWhile (p := isWs) (l := d :: cs')]
            rw [hdrop]
          have hrn : '\n' ∉ r := by
            intro hr
            exact hcs (hsplit ▸ List.mem_append_right _ (List.mem_cons_of_mem a hr))
          have htop : topLineC ('#' :: d :: cs') = true := by
            simp [topLineC, headIsWs, hd]
          rw [htop]
          calc sTopStart ('#' :: d :: cs')
              = sTopWs (d :: cs') := by simp [sTopStart, headIsWs, hd]
            _ = sTopWs ((d :: cs').takeWhile isWs ++ a :: r) := by rw [← hsplit]
            _ = sTopWs (a :: r) :=
                sTopWs_ws_append _ _ fun c hc => List.mem_takeWhile_imp hc
            _ = sTopRest r := by simp [sTopWs, hna]
            _ = [] := sTopRest_no_newline _ hrn
            _ = if true = true then ([] : List Char) else '#' :: d :: cs' := by simp
        · have htop : topLineC ('#' :: d :: cs') = false := by
            simp [topLineC, headIsWs, hd]
          rw [htop]
          simp [sTopStart, headIsWs, hd, sTopMid_no_newline _ hcs]
    · have htop : topLineC (c :: cs) = false := by simp [topLineC, hc]
      rw [htop]
      simp [sTopStart, hc, hcn, sTopMid_no_newline _ hcs]

theorem intercalateNl_cons_cons (a b : List Char) (l : List (List Char)) :
    List.intercalate ['\n'] (a :: b :: l) =
      a ++ '\n' :: List.intercalate ['\n'] (b :: l) := by
  simp [List.intercalate, List.intersperse]

/-- The scanner processes a newline-joined list of spill-free lines line by
line, blanking exactly the top-heading lines. -/
theorem sTop_joinLines :
    ∀ (ls : List (List Char)), (∀ m ∈ ls, '\n' ∉ m ∧ spillC m = false) →
    sTopStart (List.intercalate ['\n'] ls) =
      List.intercalate ['\n'] (ls.map fun m => if topLineC m then [] else m)
  | [], _ => rfl
  | [m], h => by
    obtain ⟨hn, hs⟩ := h m (List.mem_singleton_self m)
    simpa [List.intercalate] using sTopStart_no_newline m hn hs
  | m :: m' :: ls, h => by
    obtain ⟨hn, hs⟩ := h m (List.mem_cons_self _ _)
    have hrest : ∀ x ∈ m' :: ls, '\n' ∉ x ∧ spillC x = false :=
      fun x hx => h x (List.mem_cons_of_mem _ hx)
    rw [intercalateNl_cons_cons, sTopStart_line m _ hn hs,
      sTop_joinLines (m' :: ls) hrest]
    simp [intercalateNl_cons_cons]

/-!
## Identity of the stripping transform on plain text
-/

theorem substLitGo_no_lt (p' repl : List Char) :
    ∀ (fuel : Nat) (l : List Char), '<' ∉ l → substLitGo ('<' :: p') repl fuel l = l
  | fuel, [], _ => by cases fuel <;> rfl
  | 0, _ :: _, _ => rfl
  | fuel + 1, c :: cs, h => by
    have hc : ¬ c = '<' := fun hc => h (hc ▸ List.mem_cons_self c cs)
    have hpre : (('<' :: p').isPrefixOf (c :: cs)) = false := by
      simp [List.isPrefixOf]
      intro h'
      exact absurd h'.symm hc
    simp [substLitGo, hpre,
      substLitGo_no_lt p' repl fuel cs fun hm => h (List.mem_cons_of_mem c hm)]

theorem substOpenGo_no_lt (p' : List Char) (check : List Char → Bool) (repl : List Char) :
    ∀ (fuel : Nat) (l : List Char), '<' ∉ l →
      substOpenGo ('<' :: p') check repl fuel l = l
  | fuel, [], _ => by cases fuel <;> rfl
  | 0, _ :: _, _ => rfl
  | fuel + 1, c :: cs, h => by
    have hc : ¬ c = '<' := fun hc => h (hc ▸ List.mem_cons_self c cs)
    have hpre : (('<' :: p').isPrefixOf (c :: cs)) = false := by
      simp [List.isPrefixOf]
      intro h'
      exact absurd h'.symm hc
    simp [substOpenGo, hpre,
      substOpenGo_no_lt p' check repl fuel cs fun hm => h (List.mem_cons_of_mem c hm)]

theorem substLit_no_lt (pat repl : String) (l : List Char)
    (hpat : pat.data.head? = some '<') (h : '<' ∉ l) : substLit pat repl l = l := by
  unfold substLit
  cases hd : pat.data with
  | nil => rw [hd] at hpat; simp at hpat
  | cons p ps =>
    rw [hd] at hpat
    simp only [List.head?] at hpat
    cases hpat
    exact substLitGo_no_lt ps repl.data l.length l h

theorem substOpen_no_lt (pre : String) (check : List Char → Bool) (repl : String)
    (l : List Char) (hpat : pre.data.head? = some '<') (h : '<' ∉ l) :
    substOpen pre check repl l = l := by
  unfold substOpen
  cases hd : pre.data with
  | nil => rw [hd] at hpat; simp at hpat
  | cons p ps =>
    rw [hd] at hpat
    simp only [List.head?] at hpat
    cases hpat
    exact substOpenGo_no_lt ps check repl.data l.length l h

theorem collapseGo_id :
    ∀ (l : List Char), niceWsChars l = true →
      collapseGo false l = l ∧ (headIsWs l = false → collapseGo true l = l)
  | [], _ => ⟨rfl, fun _ => rfl⟩
  | c :: cs, h => by
    rw [niceWsChars, Bool.and_eq_true] at h
    obtain ⟨hcond, hrest⟩ := h
    have ih := collapseGo_id cs hrest
    by_cases hw : isWs c = true
    · have hsp : c = ' ' ∧ headIsWs cs = false := by
        simpa [hw] using hcond
      obtain ⟨hc, hhd2⟩ := hsp
      subst hc
      refine ⟨?_, ?_⟩
      · simp [collapseGo, hw, ih.2 hhd2]
      · intro hhd
        rw [headIsWs, hw] at hhd
        cases hhd
    · have hwf : isWs c = false := by simpa using hw
      refine ⟨?_, ?_⟩
      · simp [collapseGo, hwf, ih.1]
      · intro _
        simp [collapseGo, hwf, ih.1]

theorem dropWhile_isWs_id (l : List Char) (h : headIsWs l = false) :
    l.dropWhile isWs = l := by
  cases l with
  | nil => rfl
  | cons c cs =>
    rw [headIsWs] at h
    rw [List.dropWhile_cons_of_neg (show ¬ isWs c = true by simp [h])]

theorem pyStripChars_id (l : List Char) (h1 : headIsWs l = false)
    (h2 : headIsWs l.reverse = false) : pyStripChars l = l := by
  unfold pyStripChars
  rw [dropWhile_isWs_id l h1, dropWhile_isWs_id l.reverse h2, List.reverse_reverse]

/-- On plain narration text the markup-stripping transform is the
identity. -/
theorem strip_plain_id (s : String) (h : PlainText s) : strip_ssml_tags s = s := by
  obtain ⟨hlt, hws, hhd, htl⟩ := h
  simp only [strip_ssml_tags]
  rw [substOpen_no_lt "<?xml" _ _ _ (by decide) hlt,
    substOpen_no_lt "<speak" _ _ _ (by decide) hlt,
    substLit_no_lt "</speak>" _ _ (by decide) hlt,
    substOpen_no_lt "<break" _ _ _ (by decide) hlt,
    substOpen_no_lt "<prosody" _ _ _ (by decide) hlt,
    substLit_no_lt "</prosody>" _ _ (by decide) hlt,
    substOpen_no_lt "<emphasis" _ _ _ (by decide) hlt,
    substLit_no_lt "</emphasis>" _ _ (by decide) hlt,
    substOpen_no_lt "<say-as" _ _ _ (by decide) hlt,
    substLit_no_lt "</say-as>" _ _ (by decide) hlt,
    substLit_no_lt "<p>" _ _ (by decide) hlt,
    substLit_no_lt "</p>" _ _ (by decide) hlt,
    (collapseGo_id s.data hws).1, pyStripChars_id s.data hhd htl]

/-!
## Title-derivation lemmas
-/

theorem replace_md_suffix :
    ∀ (l : List Char) (fuel : Nat), '.' ∉ l → l.length + 3 ≤ fuel →
      substLitGo ['.', 'm', 'd'] [] fuel (l ++ ['.', 'm', 'd']) = l
  | [], 0, _, hf => by omega
  | [], fuel + 1, _, _ => by
    have hstep : substLitGo ['.', 'm', 'd'] [] (fuel + 1) ['.', 'm', 'd'] =
        substLitGo ['.', 'm', 'd'] [] fuel [] := by
      simp [substLitGo, List.isPrefixOf]
    rw [List.nil_append, hstep]
    cases fuel <;> rfl
  | c :: cs, 0, _, hf => by omega
  | c :: cs, fuel + 1, h, hf => by
    have hc : ¬ c = '.' := fun hc => h (hc ▸ List.mem_cons_self c cs)
    have hpre : ((['.', 'm', 'd'] : List Char).isPrefixOf (c :: (cs ++ ['.', 'm', 'd']))) = false := by
      simp [List.isPrefixOf]
      intro h'
      exact absurd h'.symm hc
    have hf' : cs.length + 3 ≤ fuel := by
      simp [List.length_cons] at hf
      omega
    rw [show (c :: cs) ++ ['.', 'm', 'd'] = c :: (cs ++ ['.', 'm', 'd']) from rfl]
    simp only [substLitGo, hpre, Bool.false_eq_true, if_false]
    rw [replace_md_suffix cs fuel (fun hm => h (List.mem_cons_of_mem c hm)) hf']

theorem mem_substLitGo (pat repl : List Char) :
    ∀ (fuel : Nat) (l : List Char) (c : Char),
      c ∈ substLitGo pat repl fuel l → c ∈ l ∨ c ∈ repl
  | fuel, [], c, h => by cases fuel <;> simp [substLitGo] at h
  | 0, a :: l, c, h => .inl h
  | fuel + 1, a :: l, c, h => by
    by_cases hp : pat.isPrefixOf (a :: l) = true
    · rw [substLitGo, if_pos hp] at h
      rcases List.mem_append.mp h with h | h
      · exact .inr h
      · rcases mem_substLitGo pat repl fuel _ c h with h | h
        · exact .inl (List.mem_of_mem_drop h)
        · exact .inr h
    · rw [substLitGo, if_neg hp] at h
      rcases List.mem_cons.mp h with h | h
      · exact .inl (h ▸ List.mem_cons_self a l)
      · rcases mem_substLitGo pat repl fuel l c h with h | h
        · exact .inl (List.mem_cons_of_mem a h)
        · exact .inr h

theorem mem_splitWsGo :
    ∀ (l cur w : List Char), w ∈ splitWsGo cur l → ∀ c ∈ w, c ∈ cur ∨ c ∈ l
  | [], cur, w, hw, c, hc => by
    by_cases hcur : cur.isEmpty
    · simp [splitWsGo, hcur] at hw
    · simp [splitWsGo, hcur] at hw
      subst hw
      exact .inl (List.mem_reverse.mp hc)
  | a :: l, cur, w, hw, c, hc => by
    by_cases ha : isWs a = true
    · by_cases hcur : cur.isEmpty
      · rw [splitWsGo, if_pos ha, if_pos hcur] at hw
        rcases mem_splitWsGo l [] w hw c hc with h | h
        · simp at h
        · exact .inr (List.mem_cons_of_mem a h)
      · rw [splitWsGo, if_pos ha, if_neg hcur] at hw
        rcases List.mem_cons.mp hw with h | h
        · exact .inl (List.mem_reverse.mp (h ▸ hc))
        · rcases mem_splitWsGo l [] w h c hc with h' | h'
          · simp at h'
          · exact .inr (List.mem_cons_of_mem a h')
    · rw [splitWsGo, if_neg ha] at hw
      rcases mem_splitWsGo l (a :: cur) w hw c hc with h | h
      · rcases List.mem_cons.mp h with h' | h'
        · exact .inr (h' ▸ List.mem_cons_self a l)
        · exact .inl h'
      · exact .inr (List.mem_cons_of_mem a h)

theorem map_toLower_fixed :
    ∀ (cs : List Char), (∀ c ∈ cs, Char.toLower c = c) → cs.map Char.toLower = cs
  | [], _ => rfl
  | c :: cs, h => by
    rw [List.map_cons, h c (List.mem_cons_self c cs),
      map_toLower_fixed cs fun d hd => h d (List.mem_cons_of_mem c hd)]

theorem pyCapitalize_eq_specCapFirst (w : String)
    (h : ∀ c ∈ w.data, Char.toLower c = c) : pyCapitalize w = specCapFirst w := by
  unfold pyCapitalize specCapFirst
  cases hd : w.data with
  | nil => rfl
  | cons c cs =>
    have hcs : ∀ d ∈ cs, Char.toLower d = d := fun d hdm =>
      h d (hd ▸ List.mem_cons_of_mem c hdm)
    show (⟨c.toUpper :: cs.map Char.toLower⟩ : String) = ⟨c.toUpper :: cs⟩
    rw [map_toLower_fixed cs hcs]

theorem map_eq_on {α β : Type} (f g : α → β) :
    ∀ (l : List α), (∀ a ∈ l, f a = g a) → l.map f = l.map g
  | [], _ => rfl
  | a :: l, h => by
    rw [List.map_cons, List.map_cons, h a (List.mem_cons_self a l),
      map_eq_on f g l fun b hb => h b (List.mem_cons_of_mem a hb)]

theorem pyReplace_md_eq (stem : String) (hdot : '.' ∉ stem.data) :
    pyReplace ".md" "" (stem ++ ".md") = stem := by
  have hdata : (stem ++ ".md").data = stem.data ++ ['.', 'm', 'd'] := by
    simp [String.data_append]
  show (⟨substLitGo ".md".data "".data (stem ++ ".md").data.length
      (stem ++ ".md").data⟩ : String) = stem
  rw [hdata]
  have : substLitGo ['.', 'm', 'd'] [] (stem.data ++ ['.', 'm', 'd']).length
      (stem.data ++ ['.', 'm', 'd']) = stem.data :=
    replace_md_suffix stem.data _ hdot (by simp)
  exact congrArg String.mk this

theorem pathStem_md (stem : String) : pathStem (stem ++ ".md") = stem := by
  have hdata : (stem ++ ".md").data = stem.data ++ ['.', 'm', 'd'] := by
    simp [String.data_append]
  have hmem : '.' ∈ (stem ++ ".md").data := by
    rw [hdata]
    exact List.mem_append_right _ (by decide)
  have hrev : (stem.data ++ ['.', 'm', 'd']).reverse =
      'd' :: 'm' :: '.' :: stem.data.reverse := by simp
  rw [pathStem, if_pos hmem, hdata, hrev,
    List.dropWhile_cons_of_pos (by decide), List.dropWhile_cons_of_pos (by decide),
    List.dropWhile_cons_of_neg (by simp)]
  simp

/-- On a stem with no dot and no upper-case letter, the implemented
`clean_title` agrees with the title derivation the specification
describes. -/
theorem clean_title_spec_agree (stem : String)
    (hdot : '.' ∉ stem.data) (hlower : ∀ c ∈ stem.data, Char.toLower c = c) :
    clean_title (stem ++ ".md") = specTitle (stem ++ ".md") := by
  unfold clean_title specTitle specRemoveExt
  rw [pyReplace_md_eq stem hdot, pathStem_md stem]
  refine congrArg (pyJoin " ") (map_eq_on _ _ _ fun w hw => ?_)
  refine pyCapitalize_eq_specCapFirst w fun c hc => ?_
  -- trace the character back through the split and the hyphen replacement
  unfold pySplitWs at hw
  rcases List.mem_map.mp hw with ⟨w', hw', rfl⟩
  have hc' : c ∈ w' := hc
  rcases mem_splitWsGo _ [] w' hw' c hc' with h | h
  · simp at h
  · have : c ∈ stem.data ∨ c ∈ (" " : String).data :=
      mem_substLitGo "-".data " ".data _ _ c h
    rcases this with h' | h'
    · exact hlower c h'
    · have : c = ' ' := by simpa using h'
      subst this
      decide

/-!
## Aggregator ordering lemmas
-/

theorem flatMap_if_filter {α β : Type} (p : α → Bool) (g : α → List β) :
    ∀ (l : List α),
      (l.flatMap fun k => if p k then [] else g k) =
        (l.filter fun k => !p k).flatMap g
  | [] => rfl
  | a :: l => by
    by_cases hp : p a = true
    · simp [List.flatMap_cons, List.filter_cons, hp, flatMap_if_filter p g l]
    · simp [List.flatMap_cons, List.filter_cons, hp, flatMap_if_filter p g l]

theorem sorted_globMd (files : List String) : List.Sorted (· ≤ ·) (globMd files) :=
  List.sorted_insertionSort _ _

/-- Every topic sequence assembled by `collect_files` is sorted (it is
either empty or the result of the sorted glob). -/
theorem sorted_collect_files (fs : List (String × List String)) (k : String) :
    List.Sorted (· ≤ ·) (collect_files fs k) := by
  suffices h : ∀ (acc : String → List String), (∀ j, List.Sorted (· ≤ ·) (acc j)) →
      ∀ j, List.Sorted (· ≤ ·)
        (fs.foldl
          (fun acc p =>
            if p.1 ∈ topicKeys then fun k => if k = p.1 then globMd p.2 else acc k
            else acc)
          acc j) by
    exact h _ (fun _ => List.sorted_nil) k
  induction fs with
  | nil => intro acc hacc j; exact hacc j
  | cons p fs ih =>
    intro acc hacc j
    rw [List.foldl_cons]
    apply ih
    intro j'
    by_cases hp : p.1 ∈ topicKeys
    · rw [if_pos hp]
      by_cases hj : j' = p.1
      · simp only [hj, if_pos rfl]
        exact sorted_globMd _
      · simp only [if_neg hj]
        exact hacc j'
    · rw [if_neg hp]
      exact hacc j'

/-- The aggregated parts are the TOC followed by the sections of exactly the
non-empty topics, in Topic Index order. -/
theorem build_master_parts_eq (o : String → List String)
    (read : String → String → Except String String) :
    build_master_parts o read =
      generate_toc o ::
        (topicKeys.filter fun k => !(o k).isEmpty).flatMap
          (fun k => topicSection read k (o k)) := by
  unfold build_master_parts
  rw [flatMap_if_filter (fun k => (o k).isEmpty) (fun k => topicSection read k (o k))
    topicKeys]

/-- The TOC lists exactly the non-empty topics, in Topic Index order. -/
theorem tocParts_eq (o : String → List String) :
    tocParts o =
      tocHeader ++
        (topicKeys.filter fun k => !(o k).isEmpty).flatMap (tocEntry o) ++
        ["---", ""] := by
  unfold tocParts
  rw [flatMap_if_filter (fun k => (o k).isEmpty) (tocEntry o) topicKeys]

/-!
## Manifest lemmas
-/

theorem convItem_sources (read : String → Except String String)
    (convert : String → Option String)
    (write : String → String → Except String Unit) :
    ∀ (mdFiles : List String),
      ((mdFiles.flatMap (convItem read convert write)).map (·.source)) =
        mdFiles.filter (readOk read)
  | [] => rfl
  | rel :: rest => by
    have ih := convItem_sources read convert write rest
    simp only [List.flatMap_cons, List.filter_cons, List.map_append]
    cases hr : read rel with
    | error e => simp [convItem, readOk, hr, ih]
    | ok content =>
      cases hc : convert content with
      | none => simp [convItem, readOk, hr, hc, ih]
      | some ssml =>
        cases hw : write (ssmlName rel) ssml with
        | ok u => simp [convItem, readOk, hr, hc, hw, ih]
        | error e => simp [convItem, readOk, hr, hc, hw, ih]

theorem convItem_status (read : String → Except String String)
    (convert : String → Option String)
    (write : String → String → Except String Unit) (rel : String) :
    ∀ e ∈ convItem read convert write rel,
      e.status = "success" ∨ e.status = "error" ∨ e.status = "conversion_failed" := by
  intro e he
  unfold convItem at he
  cases hr : read rel with
  | error _ => simp only [hr] at he; simp at he
  | ok content =>
    simp only [hr] at he
    cases hc : convert content with
    | none =>
      simp only [hc] at he
      rw [List.mem_singleton.mp he]
      right; right; rfl
    | some ssml =>
      simp only [hc] at he
      cases hw : write (ssmlName rel) ssml with
      | ok u =>
        simp only [hw] at he
        rw [List.mem_singleton.mp he]
        left; rfl
      | error e' =>
        simp only [hw] at he
        rw [List.mem_singleton.mp he]
        right; left; rfl

/-!
## Placeholder and membership lemmas for the aggregator
-/

theorem placeholder_data (k name e : String) :
    (readErrorPlaceholder k name e).data =
      '<' :: ("!-- Error reading " ++ notebookPath k name ++ ": " ++ e ++ " -->").data := by
  unfold readErrorPlaceholder
  rw [show ("<!-- Error reading " : String) = "<" ++ "!-- Error reading " from by decide]
  simp [String.data_append]

theorem placeholder_no_newline (k name e : String) (hk : '\n' ∉ k.data)
    (hn : '\n' ∉ name.data) (he : '\n' ∉ e.data) :
    '\n' ∉ (readErrorPlaceholder k name e).data := by
  intro hmem
  unfold readErrorPlaceholder notebookPath at hmem
  simp only [String.data_append, List.mem_append, or_assoc] at hmem
  rcases hmem with hm | hm | hm | hm | hm | hm | hm | hm
  · exact absurd hm (by decide)
  · exact absurd hm (by decide)
  · exact hk hm
  · exact absurd hm (by decide)
  · exact hn hm
  · exact absurd hm (by decide)
  · exact he hm
  · exact absurd hm (by decide)

theorem strip_single_line (m : List Char) (hn : '\n' ∉ m) (hhead : topLineC m = false)
    (hspill : spillC m = false) : sTopStart m = m := by
  rw [sTopStart_no_newline m hn hspill, hhead]
  simp

theorem strip_placeholder (k name e : String) (hk : '\n' ∉ k.data)
    (hn : '\n' ∉ name.data) (he : '\n' ∉ e.data) :
    stripTopHeaders (readErrorPlaceholder k name e) = readErrorPlaceholder k name e := by
  have hd := placeholder_data k name e
  have hnl := placeholder_no_newline k name e hk hn he
  show (⟨sTopStart (readErrorPlaceholder k name e).data⟩ : String) = _
  rw [strip_single_line _ hnl (by rw [hd]; rfl) (by rw [hd]; rfl)]

theorem chapter_elem_mem (o : String → List String)
    (read : String → String → Except String String) (k name : String)
    (hk : k ∈ topicKeys) (hname : name ∈ o k) (x : String)
    (hx : x ∈ chapterParts read k name) :
    x ∈ build_master_parts o read := by
  rw [build_master_parts_eq]
  refine List.mem_cons_of_mem _ (List.mem_flatMap.mpr ⟨k, ?_, ?_⟩)
  · refine List.mem_filter.mpr ⟨hk, ?_⟩
    have hne : o k ≠ [] := List.ne_nil_of_mem hname
    simp [List.isEmpty_iff, hne]
  · unfold topicSection
    exact List.mem_append_right _ (List.mem_flatMap.mpr ⟨name, hname, hx⟩)

/-!
## Claim theorems
-/

/-- C4 (corrected): the two TTS backends do not receive identical text in
general -- the edge-tts path passes the raw speech-markup content while the
Kokoro path strips it first.  Counterexample at a concrete markup input. -/
theorem C4_counterexample :
    ¬ edge_tts_text "<emphasis level=\"moderate\">ASR</emphasis> is great" =
      kokoro_tts_text "<emphasis level=\"moderate\">ASR</emphasis> is great" := by
  decide

/-- C4 (amended): only the Kokoro backend applies the markup-stripping
transform; the edge-tts backend passes the raw content, so the two backends
receive identical text exactly on inputs the transform fixes -- in
particular on plain narration text. -/
theorem C4_claim (s : String) (h : PlainText s) :
    edge_tts_text s = kokoro_tts_text s := by
  unfold edge_tts_text kokoro_tts_text
  exact (strip_plain_id s h).symm

theorem C4_witness :
    edge_tts_text "ASR is great really" = kokoro_tts_text "ASR is great really" :=
  C4_claim "ASR is great really" (by decide)

/-- C5 (corrected): the implemented title derivation differs from the
claimed one -- `str.capitalize()` also lower-cases the remainder of each
token (and `.replace('.md','')` removes every `.md` occurrence, not an
extension).  At `ASR-basics.md` the code produces `Asr Basics` while the
claimed derivation produces `ASR Basics`. -/
theorem C5_counterexample :
    clean_title "ASR-basics.md" = "Asr Basics" ∧
    specTitle "ASR-basics.md" = "ASR Basics" ∧
    ¬ clean_title "ASR-basics.md" = specTitle "ASR-basics.md" := by
  decide

/-- C5 (amended): on filenames whose stem has no dot and no upper-case
letter the implemented derivation agrees with the claimed one, and the
claimed example holds: `fine-tuning-basics.md` maps to
`Fine Tuning Basics`. -/
theorem C5_claim :
    (∀ stem : String, '.' ∉ stem.data → (∀ c ∈ stem.data, Char.toLower c = c) →
      clean_title (stem ++ ".md") = specTitle (stem ++ ".md")) ∧
    clean_title "fine-tuning-basics.md" = "Fine Tuning Basics" :=
  ⟨fun stem h1 h2 => clean_title_spec_agree stem h1 h2, by decide⟩

theorem C5_witness :
    clean_title ("fine-tuning-basics" ++ ".md") = specTitle ("fine-tuning-basics" ++ ".md") :=
  C5_claim.1 "fine-tuning-basics" (by decide) (by decide)

/-- C7 (corrected): a line beginning with a single `#` marker is not
removed; the MULTILINE regex replaces it with an empty line, so the line
count is preserved.  On `a`, `# h`, `b` the code yields `a`, ``, `b`, not
`a`, `b`. -/
theorem C7_counterexample :
    stripTopHeaders (pyJoin "\n" ["a", "# h", "b"]) = pyJoin "\n" ["a", "", "b"] ∧
    ¬ stripTopHeaders (pyJoin "\n" ["a", "# h", "b"]) =
        pyJoin "\n" (["a", "# h", "b"].filter fun l => !topHeadingLine l) := by
  decide

/-- C7 (amended): for every chapter body (joined from newline-free lines
none of which is `#` followed only by whitespace), every line beginning
with a single `#` heading marker is replaced by an empty line, wherever it
occurs, while all other lines -- in particular lines beginning with `##` --
are preserved unchanged. -/
theorem C7_claim (ls : List String)
    (h : ∀ l ∈ ls, '\n' ∉ l.data ∧ spillLine l = false) :
    stripTopHeaders (pyJoin "\n" ls) =
      pyJoin "\n" (ls.map fun l => if topHeadingLine l then "" else l) ∧
    ∀ cs : List Char, topLineC ('#' :: '#' :: cs) = false := by
  constructor
  · have hd := sTop_joinLines (ls.map String.data) (by
      intro m hm
      rcases List.mem_map.mp hm with ⟨l, hl, rfl⟩
      exact (h l hl))
    show (⟨sTopStart (List.intercalate ['\n'] (ls.map String.data))⟩ : String) = _
    rw [hd]
    show (⟨List.intercalate ['\n']
        ((ls.map String.data).map fun m => if topLineC m then [] else m)⟩ : String) =
      ⟨List.intercalate ['\n']
        ((ls.map fun l => if topHeadingLine l then "" else l).map String.data)⟩
    rw [List.map_map, List.map_map]
    refine congrArg _ (congrArg _ (map_eq_on _ _ _ fun l _ => ?_))
    by_cases ht : topHeadingLine l = true
    · simp [Function.comp, ht, topHeadingLine] at *
      simp [ht]
    · have ht' : topHeadingLine l = false := by simpa using ht
      simp only [Function.comp]
      rw [show topLineC l.data = topHeadingLine l from rfl, ht']
      simp
  · intro cs
    rfl

theorem C7_witness :
    stripTopHeaders (pyJoin "\n" ["Intro", "# Title", "## Sub"]) =
      pyJoin "\n" (["Intro", "# Title", "## Sub"].map fun l => if topHeadingLine l then "" else l) :=
  (C7_claim ["Intro", "# Title", "## Sub"] (by decide)).1

/-- C9 (corrected): the stripping transform is not idempotent in general --
its single left-to-right pass can splice text around a removed marker into a
new marker that survives the pass.  `<spe<speak>ak x>hi` strips to
`<speak x>hi`, which strips again to `hi`. -/
theorem C9_counterexample :
    strip_ssml_tags "<spe<speak>ak x>hi" = "<speak x>hi" ∧
    strip_ssml_tags (strip_ssml_tags "<spe<speak>ak x>hi") = "hi" ∧
    ¬ strip_ssml_tags (strip_ssml_tags "<spe<speak>ak x>hi") =
        strip_ssml_tags "<spe<speak>ak x>hi" := by
  decide

/-- C9 (amended): the transform is the identity -- hence idempotent -- on
already-plain narration text (no `<`, whitespace already collapsed and
trimmed), and the claimed concrete example holds: the emphasis/break input
yields `ASR is great really`. -/
theorem C9_claim (s : String) (h : PlainText s) :
    strip_ssml_tags s = s ∧
    strip_ssml_tags (strip_ssml_tags s) = strip_ssml_tags s ∧
    strip_ssml_tags
        "<emphasis level=\"moderate\">ASR</emphasis> is great<break time=\"500ms\"/> really" =
      "ASR is great really" := by
  have hid := strip_plain_id s h
  exact ⟨hid, by rw [hid]; exact hid, by decide⟩

theorem C9_witness :
    strip_ssml_tags "ASR is great really" = "ASR is great really" :=
  (C9_claim "ASR is great really" (by decide)).1

/-- C1 (corrected): the Synthesis Stage does not take its work list from the
Conversion manifest.  With a Conversion manifest holding 5 success and 2
failed entries but 6 `.ssml` files on disk, the Kokoro synthesis manifest
has 6 entries, not 5. -/
theorem C1_counterexample :
    (process_ssml_directory_kokoro "t"
        (some ⟨"t", 7,
          [⟨"a.md", some "a.ssml", "success", none⟩,
           ⟨"b.md", some "b.ssml", "success", none⟩,
           ⟨"c.md", some "c.ssml", "success", none⟩,
           ⟨"d.md", some "d.ssml", "success", none⟩,
           ⟨"e.md", some "e.ssml", "success", none⟩,
           ⟨"f.md", none, "failed", none⟩,
           ⟨"g.md", none, "failed", none⟩]⟩)
        [("a.ssml", Except.ok "hi"), ("b.ssml", Except.ok "hi"),
         ("c.ssml", Except.ok "hi"), ("d.ssml", Except.ok "hi"),
         ("e.ssml", Except.ok "hi"), ("stale.ssml", Except.ok "hi")]
        (fun _ => some "audio")).map (fun r => r.manifest.files.length) = some 6 ∧
    ¬ (6 : Nat) = 5 := by
  decide

/-- C1 (amended): both Synthesis Stage scripts use the Conversion manifest
only as an existence precondition; they process exactly the `.ssml` files
found on disk, one manifest entry per file in disk order, independently of
the manifest's contents. -/
theorem C1_claim (now voice : String) (m m' : ConvManifest)
    (files : List (String × Except String String)) (tts : String → Bool)
    (api : String → Option String) (hf : ¬ files = []) :
    process_ssml_directory now voice (some m) files tts =
      process_ssml_directory now voice (some m') files tts ∧
    process_ssml_directory_kokoro now (some m) files api =
      process_ssml_directory_kokoro now (some m') files api ∧
    (process_ssml_directory now voice (some m) files tts).map
        (fun r => r.manifest.files.length) = some files.length ∧
    (process_ssml_directory now voice (some m) files tts).map
        (fun r => r.manifest.files.map fun e => e.ssml_source) =
      some (files.map fun p => p.1) ∧
    (process_ssml_directory_kokoro now (some m) files api).map
        (fun r => r.manifest.files.length) = some files.length ∧
    (process_ssml_directory_kokoro now (some m) files api).map
        (fun r => r.manifest.files.map fun e => e.ssml_source) =
      some (files.map fun p => p.1) := by
  have hne : files.isEmpty = false := by
    cases files with
    | nil => exact absurd rfl hf
    | cons a l => rfl
  refine ⟨by simp [process_ssml_directory, hne], by simp [process_ssml_directory_kokoro, hne],
    by simp [process_ssml_directory, hne], ?_, by simp [process_ssml_directory_kokoro, hne], ?_⟩
  · simp only [process_ssml_directory, hne, Bool.false_eq_true, if_false, Option.map_some]
    refine congrArg some ?_
    dsimp only
    rw [List.map_map]
    exact map_eq_on _ _ _ fun p _ => by
      by_cases hc : convert_ssml_to_audio p.2 tts = true <;> simp [Function.comp, hc]
  · simp only [process_ssml_directory_kokoro, hne, Bool.false_eq_true, if_false,
      Option.map_some]
    refine congrArg some ?_
    dsimp only
    rw [List.map_map]
    exact map_eq_on _ _ _ fun p _ => by
      by_cases hc : (convert_ssml_to_audio_kokoro (wavName p.1) p.2 api).1 = true <;>
        simp [Function.comp, hc]

theorem C1_witness :
    process_ssml_directory "t" "v" (some ⟨"x", 0, []⟩)
        [("a.ssml", Except.ok "hi")] (fun _ => true) =
      process_ssml_directory "t" "v" (some ⟨"y", 7, [⟨"a.md", none, "failed", none⟩]⟩)
        [("a.ssml", Except.ok "hi")] (fun _ => true) :=
  (C1_claim "t" "v" ⟨"x", 0, []⟩ ⟨"y", 7, [⟨"a.md", none, "failed", none⟩]⟩
    [("a.ssml", Except.ok "hi")] (fun _ => true) (fun _ => some "b")
    (List.cons_ne_nil _ _)).1

/-- C2 (corrected): an item whose source read fails is not recorded at all
-- the loop `continue`s without appending a manifest entry -- so a run over
1 item whose read fails produces a manifest with 0 entries, not 1. -/
theorem C2_counterexample :
    (process_notebook "t" ["a.md"] (fun _ => Except.error "unreadable")
        (fun c => some c) (fun _ _ => Except.ok ())).files = [] ∧
    ¬ (process_notebook "t" ["a.md"] (fun _ => Except.error "unreadable")
        (fun c => some c) (fun _ _ => Except.ok ())).files.length =
        (["a.md"] : List String).length := by
  decide

/-- C2 (amended): a Conversion Stage run over N items records
`total_files = N` but contains one manifest entry per item whose source
read succeeded, in order (a failed read yields no entry and processing
continues); every recorded entry's status is `success`, `error` or
`conversion_failed`, never pending. -/
theorem C2_claim (now : String) (mdFiles : List String)
    (read : String → Except String String) (convert : String → Option String)
    (write : String → String → Except String Unit) :
    (process_notebook now mdFiles read convert write).total_files = mdFiles.length ∧
    (process_notebook now mdFiles read convert write).files.map (fun e => e.source) =
      mdFiles.filter (readOk read) ∧
    ∀ e ∈ (process_notebook now mdFiles read convert write).files,
      e.status = "success" ∨ e.status = "error" ∨ e.status = "conversion_failed" := by
  refine ⟨rfl, convItem_sources read convert write mdFiles, ?_⟩
  intro e he
  simp only [process_notebook] at he
  rcases List.mem_flatMap.mp he with ⟨rel, _, hrel⟩
  exact convItem_status read convert write rel e hrel

theorem C2_witness :
    (process_notebook "t" ["a.md", "b.md"]
        (fun r => if r = "a.md" then Except.error "gone" else Except.ok "x")
        (fun c => some c) (fun _ _ => Except.ok ())).files.map (fun e => e.source) =
      ["b.md"] := by
  rw [(C2_claim "t" ["a.md", "b.md"]
    (fun r => if r = "a.md" then Except.error "gone" else Except.ok "x")
    (fun c => some c) (fun _ _ => Except.ok ())).2.1]
  decide

/-- C3 (corrected): the status vocabulary is not {success, failed, skipped}:
the Conversion Stage records `conversion_failed` when the external
conversion fails (and `error` when the save fails), and no stage ever
records `skipped`. -/
theorem C3_counterexample :
    ¬ ∀ e ∈ (process_notebook "t" ["a.md"] (fun _ => Except.ok "x")
        (fun _ => none) (fun _ _ => Except.ok ())).files,
      e.status = "success" ∨ e.status = "failed" ∨ e.status = "skipped" := by
  decide

/-- C3 (amended): every Conversion Stage entry's status is `success`,
`error` or `conversion_failed`; every Synthesis Stage entry's status (either
backend) is `success` or `failed`; `skipped` never occurs. -/
theorem C3_claim (now voice : String) (mdFiles : List String)
    (read : String → Except String String) (convert : String → Option String)
    (write : String → String → Except String Unit) (m : Option ConvManifest)
    (files : List (String × Except String String)) (tts : String → Bool)
    (api : String → Option String) :
    (∀ e ∈ (process_notebook now mdFiles read convert write).files,
        e.status = "success" ∨ e.status = "error" ∨ e.status = "conversion_failed") ∧
    (∀ run, process_ssml_directory now voice m files tts = some run →
        ∀ e ∈ run.manifest.files, e.status = "success" ∨ e.status = "failed") ∧
    (∀ run, process_ssml_directory_kokoro now m files api = some run →
        ∀ e ∈ run.manifest.files, e.status = "success" ∨ e.status = "failed") := by
  refine ⟨?_, ?_, ?_⟩
  · intro e he
    simp only [process_notebook] at he
    rcases List.mem_flatMap.mp he with ⟨rel, _, hrel⟩
    exact convItem_status read convert write rel e hrel
  · intro run hrun e he
    cases m with
    | none => simp [process_ssml_directory] at hrun
    | some mm =>
      simp only [process_ssml_directory] at hrun
      by_cases hne : files.isEmpty = true
      · rw [if_pos hne] at hrun; cases hrun
      · rw [if_neg hne] at hrun
        obtain rfl := (Option.some.inj hrun).symm
        rcases List.mem_map.mp he with ⟨p, _, rfl⟩
        by_cases hc : convert_ssml_to_audio p.2 tts = true
        · left; simp [hc]
        · right; simp [hc]
  · intro run hrun e he
    cases m with
    | none => simp [process_ssml_directory_kokoro] at hrun
    | some mm =>
      simp only [process_ssml_directory_kokoro] at hrun
      by_cases hne : files.isEmpty = true
      · rw [if_pos hne] at hrun; cases hrun
      · rw [if_neg hne] at hrun
        obtain rfl := (Option.some.inj hrun).symm
        rcases List.mem_map.mp he with ⟨p, _, rfl⟩
        by_cases hc : (convert_ssml_to_audio_kokoro (wavName p.1) p.2 api).1 = true
        · left; simp [hc]
        · right; simp [hc]

theorem C3_witness :
    (⟨"a.md", none, "conversion_failed", none⟩ : ConvEntry).status = "success" ∨
    (⟨"a.md", none, "conversion_failed", none⟩ : ConvEntry).status = "error" ∨
    (⟨"a.md", none, "conversion_failed", none⟩ : ConvEntry).status = "conversion_failed" :=
  (C3_claim "t" "v" ["a.md"] (fun _ => Except.ok "x") (fun _ => none)
    (fun _ _ => Except.ok ()) (some ⟨"g", 1, []⟩) [("a.ssml", Except.ok "hi")]
    (fun _ => true) (fun _ => some "b")).1
    ⟨"a.md", none, "conversion_failed", none⟩ (by decide)

/-- C10 (confirmed): in the Kokoro path an item whose markup strips to the
empty string triggers no synthesis call and no audio write, and is recorded
in the synthesis manifest with status `failed`. -/
theorem C10_claim (out now content name : String) (api : String → Option String)
    (m : Option ConvManifest) (files : List (String × Except String String))
    (run : KokoroRun)
    (hstrip : strip_ssml_tags content = "")
    (hrun : process_ssml_directory_kokoro now m files api = some run)
    (hmem : (name, Except.ok content) ∈ files) :
    convert_ssml_to_audio_kokoro out (Except.ok content) api = (false, [], none) ∧
    (⟨name, none, "failed"⟩ : SynthEntry) ∈ run.manifest.files := by
  have hconv : ∀ o : String,
      convert_ssml_to_audio_kokoro o (Except.ok content) api = (false, [], none) := by
    intro o
    simp [convert_ssml_to_audio_kokoro, kokoro_tts_text, hstrip]
  refine ⟨hconv out, ?_⟩
  cases m with
  | none => simp [process_ssml_directory_kokoro] at hrun
  | some mm =>
    simp only [process_ssml_directory_kokoro] at hrun
    by_cases hne : files.isEmpty = true
    · rw [if_pos hne] at hrun; cases hrun
    · rw [if_neg hne] at hrun
      obtain rfl := (Option.some.inj hrun).symm
      have hmap := List.mem_map_of_mem
        (fun p : String × Except String String =>
          if (convert_ssml_to_audio_kokoro (wavName p.1) p.2 api).1 then
            (⟨p.1, some (wavName p.1), "success"⟩ : SynthEntry)
          else ⟨p.1, none, "failed"⟩) hmem
      simpa [hconv] using hmap

theorem C10_witness :
    convert_ssml_to_audio_kokoro "a.wav" (Except.ok "<speak></speak>")
        (fun _ => some "b") = (false, [], none) ∧
    (⟨"a.ssml", none, "failed"⟩ : SynthEntry) ∈
      (⟨⟨"t", "kokoro-82m", "hexgrad/Kokoro-82M", 1, [⟨"a.ssml", none, "failed"⟩]⟩,
        [], []⟩ : KokoroRun).manifest.files :=
  C10_claim "a.wav" "t" "<speak></speak>" "a.ssml" (fun _ => some "b")
    (some ⟨"g", 1, []⟩) [("a.ssml", Except.ok "<speak></speak>")]
    ⟨⟨"t", "kokoro-82m", "hexgrad/Kokoro-82M", 1, [⟨"a.ssml", none, "failed"⟩]⟩, [], []⟩
    (by decide) (by decide) (List.mem_singleton_self _)

/-- C6 (confirmed): the aggregated document emits its topic sections in
exactly Topic Index order restricted to the topics with at least one
collected item (empty topics are omitted from both the TOC and the body),
and within each topic the chapters are emitted in the catalog's order,
which is sorted lexicographically by filename. -/
theorem C6_claim (fs : List (String × List String))
    (read : String → String → Except String String) :
    build_master_parts (collect_files fs) read =
      generate_toc (collect_files fs) ::
        (topicKeys.filter fun k => !(collect_files fs k).isEmpty).flatMap
          (fun k => topicSection read k (collect_files fs k)) ∧
    tocParts (collect_files fs) =
      tocHeader ++
        (topicKeys.filter fun k => !(collect_files fs k).isEmpty).flatMap
          (tocEntry (collect_files fs)) ++ ["---", ""] ∧
    ∀ k, List.Sorted (· ≤ ·) (collect_files fs k) :=
  ⟨build_master_parts_eq _ _, tocParts_eq _, sorted_collect_files fs⟩

/-- C8 (confirmed): a failed source read does not abort aggregation -- the
item's slot in the document holds the inline comment placeholder carrying
the error message (which the heading regex leaves untouched), and every
collected item, including every subsequent one, still contributes its
chapter header to the document. -/
theorem C8_claim (fs : List (String × List String))
    (read : String → String → Except String String) (k name e : String)
    (hk : k ∈ topicKeys) (hname : name ∈ collect_files fs k)
    (hread : read k name = Except.error e)
    (hn : '\n' ∉ name.data) (he : '\n' ∉ e.data) :
    stripTopHeaders (read_file_content read k name) = readErrorPlaceholder k name e ∧
    readErrorPlaceholder k name e ∈ build_master_parts (collect_files fs) read ∧
    ∀ k' name', k' ∈ topicKeys → name' ∈ collect_files fs k' →
      ("## " ++ clean_title name') ∈ build_master_parts (collect_files fs) read := by
  have hkn : '\n' ∉ k.data := by
    have hall : ∀ kk ∈ topicKeys, '\n' ∉ kk.data := by decide
    exact hall k hk
  have hrc : read_file_content read k name = readErrorPlaceholder k name e := by
    unfold read_file_content
    rw [hread]
  have hstrip : stripTopHeaders (read_file_content read k name) =
      readErrorPlaceholder k name e := by
    rw [hrc]
    exact strip_placeholder k name e hkn hn he
  refine ⟨hstrip, ?_, ?_⟩
  · have hx : stripTopHeaders (read_file_content read k name) ∈ chapterParts read k name := by
      unfold chapterParts
      simp
    rw [hstrip] at hx
    exact chapter_elem_mem _ read k name hk hname _ hx
  · intro k' name' hk' hname'
    refine chapter_elem_mem _ read k' name' hk' hname' _ ?_
    unfold chapterParts
    simp

theorem C8_witness :
    readErrorPlaceholder "models" "a.md" "boom" ∈
      build_master_parts (collect_files [("models", ["a.md"]), ("vocab", ["z.md"])])
        (fun _ n => if n = "a.md" then Except.error "boom" else Except.ok "text") ∧
    ("## " ++ clean_title "z.md") ∈
      build_master_parts (collect_files [("models", ["a.md"]), ("vocab", ["z.md"])])
        (fun _ n => if n = "a.md" then Except.error "boom" else Except.ok "text") := by
  have h := C8_claim [("models", ["a.md"]), ("vocab", ["z.md"])]
    (fun _ n => if n = "a.md" then Except.error "boom" else Except.ok "text")
    "models" "a.md" "boom" (by decide) (by decide) rfl (by decide) (by decide)
  exact ⟨h.2.1, h.2.2 "vocab" "z.md" (by decide) (by decide)⟩

end ASRNotebook
